import Mathlib

/-!
Verification of the loan amortization engine of the repository
(src/src/App.js, component App).  The engine lives in two useMemo blocks:
the amortization computation (schedule, totals, computed monthly repayment)
and the yearly chart aggregation.  JavaScript numbers are modelled by
exact rationals; a value of NaN (a failed parseFloat/parseInt) is modelled
by the value none of Option Rat, and every JS comparison with NaN is false,
which the helper predicates below reproduce.
-/

namespace LoanCalc

/-- The value of x.toFixed(2) read back as a number: x rounded to cents. -/
def toFixed2 (x : ℚ) : ℚ := ((round (100 * x) : ℤ) : ℚ) / 100

/-- One row of the amortization schedule, as pushed by the schedule loop.
The four monetary fields hold the toFixed(2)-rounded values that the code
stores in the row object. -/
structure ScheduleEntry where
  month : ℕ
  interest : ℚ
  principal : ℚ
  payment : ℚ
  remainingBalance : ℚ
  deriving DecidableEq, Repr

/-- JS test `b > 0` where b may be NaN (none): false on NaN. -/
def posOpt : Option ℚ → Bool
  | none => false
  | some b => decide (0 < b)

/-- JS test `x > b` where b may be NaN (none): false on NaN. -/
def gtOpt (x : ℚ) : Option ℚ → Bool
  | none => false
  | some b => decide (b < x)

/-- JS test `x < t` where t may be NaN (none): false on NaN. -/
def ltOpt (x : ℚ) : Option ℚ → Bool
  | none => false
  | some t => decide (x < t)

/-- JS parseInt applied to the decimal rendering of a number: truncation
toward zero. -/
def truncQ (t : ℚ) : ℤ := if 0 ≤ t then ⌊t⌋ else ⌈t⌉

/-- `const rate = parseFloat(interestRate) / 100 / 12`. -/
def periodicRate (x : ℚ) : ℚ := x / 100 / 12

/-- `let pmt = principal * (rate * Math.pow(1 + rate, termInMonths)) /
(Math.pow(1 + rate, termInMonths) - 1)`. -/
def pmtBase (P r : ℚ) (n : ℕ) : ℚ := P * (r * (1 + r) ^ n) / ((1 + r) ^ n - 1)

/-- The balloon-adjusted payment:
`pmt = (principal - balloonFactor) * (rate / (1 - Math.pow(1 + rate, -termInMonths)))`
with `balloonFactor = balloon / Math.pow(1 + rate, termInMonths)`. -/
def pmtWithBalloon (P r : ℚ) (n : ℕ) (b : ℚ) : ℚ :=
  (P - b / (1 + r) ^ n) * (r / (1 - (1 + r) ^ (-(n : ℤ))))

/-- The computed monthly repayment: balloon-adjusted when `balloon > 0`
(false for NaN or nonpositive balloon), otherwise the base formula. -/
def calculatedPmt (P r : ℚ) (n : ℕ) (balloon : Option ℚ) : ℚ :=
  if posOpt balloon then pmtWithBalloon P r n (balloon.getD 0) else pmtBase P r n

/-- `const finalMonthlyRepayment = overrideRepayment && monthlyRepayment > 0 ?
monthlyRepayment : pmt`. -/
def finalRepayment (pmt : ℚ) (mr : Option ℚ) (ov : Bool) : ℚ :=
  if ov && posOpt mr then mr.getD 0 else pmt

/-- The final-period balloon branches of the loop body: at `i === termInMonths`,
if the post-payment balance exceeds the balloon the code does nothing (the
commented-out complex case); otherwise, if `balloon > 0`, it subtracts the
balloon. -/
def monthlyBal2 (n : ℕ) (balloon : Option ℚ) (i : ℕ) (bal1 : ℚ) : ℚ :=
  if i = n ∧ gtOpt bal1 balloon then bal1
  else if i = n ∧ posOpt balloon then bal1 - balloon.getD 0
  else bal1

/-- The schedule loop
`for (let i = 1; i <= termInMonths && remainingBalance > 0; i++)`, with
`fuel = termInMonths - i + 1` remaining iterations.  Returns the rows pushed
and the final cumulativeInterest. -/
def amortRec (r pay : ℚ) (n : ℕ) (balloon : Option ℚ) :
    ℕ → ℕ → ℚ → ℚ → List ScheduleEntry × ℚ
  | 0, _, _, cum => ([], cum)
  | fuel + 1, i, bal, cum =>
    if 0 < bal then
      let interestForMonth := bal * r
      let principalForMonth0 := pay - interestForMonth
      let principalForMonth :=
        if bal - principalForMonth0 < 0 then bal else principalForMonth0
      let bal1 := bal - principalForMonth
      let bal2 := monthlyBal2 n balloon i bal1
      let e : ScheduleEntry :=
        { month := i, interest := toFixed2 interestForMonth,
          principal := toFixed2 principalForMonth,
          payment := toFixed2 (principalForMonth + interestForMonth),
          remainingBalance := toFixed2 bal2 }
      let cum2 := cum + interestForMonth
      if bal2 ≤ 0 then ([e], cum2)
      else
        let rest := amortRec r pay n balloon fuel (i + 1) bal2 cum2
        (e :: rest.1, rest.2)
    else ([], cum)

/-- What the amortization useMemo returns. -/
structure AmortResult where
  schedule : List ScheduleEntry
  totalInterest : ℚ
  totalPayment : ℚ
  calculatedMthRepayment : ℚ
  deriving DecidableEq, Repr

/-- The early return on the validity guard:
`{ schedule: [], totalInterest: 0, totalPayment: 0, calculatedMthRepayment: 0 }`. -/
def emptyResult : AmortResult := ⟨[], 0, 0, 0⟩

/-- The negation of the validity guard
`isNaN(principal) || isNaN(rate) || isNaN(termInMonths) || principal <= 0 ||
rate <= 0 || termInMonths <= 0`: true exactly when the engine proceeds past
the guard. -/
def validInput : Option ℚ → Option ℚ → Option ℚ → Bool
  | some P, some x, some t =>
    !(decide (P ≤ 0) || decide (periodicRate x ≤ 0) || decide (truncQ t * 12 ≤ 0))
  | _, _, _ => false

/-- The amortization useMemo of App: inputs are the five state fields, each
numeric field as its parsed value (none = NaN). -/
def computeAmortization (loanAmount interestRate loanTerm balloonPayment
    monthlyRepayment : Option ℚ) (overrideRepayment : Bool) : AmortResult :=
  match loanAmount, interestRate, loanTerm with
  | some principal, some x, some t =>
    let rate := periodicRate x
    let termInMonths : ℤ := truncQ t * 12
    if principal ≤ 0 ∨ rate ≤ 0 ∨ termInMonths ≤ 0 then emptyResult
    else
      let n : ℕ := termInMonths.toNat
      let pmt := calculatedPmt principal rate n balloonPayment
      let pay := finalRepayment pmt monthlyRepayment overrideRepayment
      let res := amortRec rate pay n balloonPayment n 1 principal 0
      { schedule := res.1, totalInterest := res.2,
        totalPayment := principal + res.2, calculatedMthRepayment := pmt }
  | _, _, _ => emptyResult

/-- One bar of the yearly chart. -/
structure YearlySummary where
  year : ℕ
  totalPrincipal : ℚ
  totalInterest : ℚ
  deriving DecidableEq, Repr

/-- `yearSchedule.reduce((acc, curr) => acc + parseFloat(curr.principal), 0)`. -/
def sumPrincipal (l : List ScheduleEntry) : ℚ := l.foldl (fun acc e => acc + e.principal) 0

/-- `yearSchedule.reduce((acc, curr) => acc + parseFloat(curr.interest), 0)`. -/
def sumInterest (l : List ScheduleEntry) : ℚ := l.foldl (fun acc e => acc + e.interest) 0

/-- The chart loop `for (let i = 0; i < loanTerm; i++)` with its positional
slice `schedule.slice(i * 12, i * 12 + 12)` and the `break` on an empty
slice.  loanTerm is the raw state value (none = NaN); fuel bounds the
iteration count from above and never cuts the loop short. -/
def chartLoop (schedule : List ScheduleEntry) (lt : Option ℚ) :
    ℕ → ℕ → List YearlySummary
  | 0, _ => []
  | fuel + 1, i =>
    if ltOpt (i : ℚ) lt then
      let yearSchedule := (schedule.drop (i * 12)).take 12
      if yearSchedule = [] then []
      else
        { year := i + 1, totalPrincipal := sumPrincipal yearSchedule,
          totalInterest := sumInterest yearSchedule } ::
          chartLoop schedule lt fuel (i + 1)
    else []

/-- Enough fuel for chartLoop: the loop condition `i < loanTerm` fails for
every i at or beyond this bound. -/
def chartFuel : Option ℚ → ℕ
  | none => 0
  | some t => (⌈t⌉ : ℤ).toNat

/-- The chartData useMemo of App. -/
def chartData (schedule : List ScheduleEntry) (lt : Option ℚ) : List YearlySummary :=
  if schedule = [] then [] else chartLoop schedule lt (chartFuel lt) 0

/-- The balloon amount that actually influences the run: the parsed balloon
when it is a number greater than 0, and 0 in every other case (absent, NaN,
zero or negative). -/
def effBalloon : Option ℚ → ℚ
  | none => 0
  | some b => if 0 < b then b else 0

/-- The payment formula written with an inverse instead of the negative
power: `(P - B / (1+r)^n) * (r / (1 - ((1+r)^n)⁻¹))`.  Equal to the code's
two payment branches (pmtWithBalloon for B > 0, pmtBase at B = 0). -/
def specPay (P r : ℚ) (n : ℕ) (B : ℚ) : ℚ :=
  (P - B / (1 + r) ^ n) * (r / (1 - ((1 + r) ^ n)⁻¹))

/-- Closed form of the loop balance after j unclamped payments of `pay`:
`(P - pay / r) * (1+r)^j + pay / r`. -/
def annuityBal (P r pay : ℚ) (j : ℕ) : ℚ := (P - pay / r) * (1 + r) ^ j + pay / r

/-- The schedule row the loop records in month j of a no-override run with
effective balloon B: interest on the closed-form balance, the unclamped
principal portion, their sum, and the post-payment balance (0 in the final
month, where the remaining balance B is retired by the balloon, or is
already 0 when B = 0). -/
def schedEntry (P r : ℚ) (n : ℕ) (B : ℚ) (j : ℕ) : ScheduleEntry :=
  { month := j,
    interest := toFixed2 (annuityBal P r (specPay P r n B) (j - 1) * r),
    principal := toFixed2 (specPay P r n B - annuityBal P r (specPay P r n B) (j - 1) * r),
    payment := toFixed2 ((specPay P r n B - annuityBal P r (specPay P r n B) (j - 1) * r)
      + annuityBal P r (specPay P r n B) (j - 1) * r),
    remainingBalance := toFixed2 (if j = n then 0 else annuityBal P r (specPay P r n B) j) }

/-- Modelled from the spec (section 4.1): the validator of the claim accepts
when principal parses to a number > 0, the rate parses to a number > 0,
termYears parses to a positive integer (denominator 1), and the balloon,
if it parses at all, is nonnegative. -/
def specValidInput (la ir lt bp : Option ℚ) : Bool :=
  match la, ir, lt with
  | some P, some x, some t =>
    decide (0 < P) && decide (0 < x) && decide (0 < t) && decide (t.den = 1) &&
      (match bp with
       | none => true
       | some b => decide (0 ≤ b))
  | _, _, _ => false

/-- Modelled from the spec (section 4.3 step 5): the final-period balloon
handling as the claim states it, subtracting the balloon unconditionally
whenever `i = n` and the balloon is positive. -/
def monthlyBal2Sub (n : ℕ) (balloon : Option ℚ) (i : ℕ) (bal1 : ℚ) : ℚ :=
  if i = n ∧ posOpt balloon then bal1 - balloon.getD 0 else bal1

/-- The schedule loop with the claim's unconditional final-period balloon
subtraction in place of the code's guarded one; identical otherwise. -/
def amortRecSub (r pay : ℚ) (n : ℕ) (balloon : Option ℚ) :
    ℕ → ℕ → ℚ → ℚ → List ScheduleEntry × ℚ
  | 0, _, _, cum => ([], cum)
  | fuel + 1, i, bal, cum =>
    if 0 < bal then
      let interestForMonth := bal * r
      let principalForMonth0 := pay - interestForMonth
      let principalForMonth :=
        if bal - principalForMonth0 < 0 then bal else principalForMonth0
      let bal1 := bal - principalForMonth
      let bal2 := monthlyBal2Sub n balloon i bal1
      let e : ScheduleEntry :=
        { month := i, interest := toFixed2 interestForMonth,
          principal := toFixed2 principalForMonth,
          payment := toFixed2 (principalForMonth + interestForMonth),
          remainingBalance := toFixed2 bal2 }
      let cum2 := cum + interestForMonth
      if bal2 ≤ 0 then ([e], cum2)
      else
        let rest := amortRecSub r pay n balloon fuel (i + 1) bal2 cum2
        (e :: rest.1, rest.2)
    else ([], cum)

/-- The engine with the claim's unconditional final-period balloon
subtraction; identical to computeAmortization otherwise. -/
def computeAmortizationSub (loanAmount interestRate loanTerm balloonPayment
    monthlyRepayment : Option ℚ) (overrideRepayment : Bool) : AmortResult :=
  match loanAmount, interestRate, loanTerm with
  | some principal, some x, some t =>
    let rate := periodicRate x
    let termInMonths : ℤ := truncQ t * 12
    if principal ≤ 0 ∨ rate ≤ 0 ∨ termInMonths ≤ 0 then emptyResult
    else
      let n : ℕ := termInMonths.toNat
      let pmt := calculatedPmt principal rate n balloonPayment
      let pay := finalRepayment pmt monthlyRepayment overrideRepayment
      let res := amortRecSub rate pay n balloonPayment n 1 principal 0
      { schedule := res.1, totalInterest := res.2,
        totalPayment := principal + res.2, calculatedMthRepayment := pmt }
  | _, _, _ => emptyResult

/-- Modelled from the spec (section 4.4): the yearly aggregation as the
claim states it, year y taking the entries whose month lies in
[(y-1)*12+1, y*12], stopping at the first empty slice. -/
def specYearlyAux (schedule : List ScheduleEntry) : ℕ → ℕ → List YearlySummary
  | 0, _ => []
  | fuel + 1, y =>
    let slice := schedule.filter
      (fun e => decide ((y - 1) * 12 + 1 ≤ e.month) && decide (e.month ≤ y * 12))
    if slice = [] then []
    else
      { year := y, totalPrincipal := sumPrincipal slice,
        totalInterest := sumInterest slice } :: specYearlyAux schedule fuel (y + 1)

/-- Modelled from the spec (section 4.4): summaries for years 1..termYears,
stopping early at the first year with no entries. -/
def specYearlyAgg (schedule : List ScheduleEntry) (termYears : ℕ) : List YearlySummary :=
  specYearlyAux schedule termYears 1

theorem toFixed2_zero : toFixed2 0 = 0 := by
  simp [toFixed2]

theorem toFixed2_mono {x y : ℚ} (h : x ≤ y) : toFixed2 x ≤ toFixed2 y := by
  unfold toFixed2
  have h1 : round (100 * x) ≤ round (100 * y) := by
    rw [round_eq, round_eq]
    exact Int.floor_mono (by linarith)
  have h2 : ((round (100 * x) : ℤ) : ℚ) ≤ ((round (100 * y) : ℤ) : ℚ) :=
    Int.cast_le.mpr h1
  exact div_le_div_of_nonneg_right h2 (by norm_num) |>.trans_eq rfl

theorem toFixed2_nonneg {x : ℚ} (h : 0 ≤ x) : 0 ≤ toFixed2 x := by
  have := toFixed2_mono h
  rw [toFixed2_zero] at this
  exact this

theorem truncQ_natCast (m : ℕ) : truncQ (m : ℚ) = m := by
  simp [truncQ, Nat.cast_nonneg]

theorem periodicRate_pos (x : ℚ) : 0 < periodicRate x ↔ 0 < x := by
  unfold periodicRate
  rw [div_div]
  rw [lt_div_iff₀ (by norm_num : (0 : ℚ) < 100 * 12)]
  norm_num

theorem one_lt_pow1r {r : ℚ} (hr : 0 < r) {n : ℕ} (hn : n ≠ 0) : 1 < (1 + r) ^ n := by
  have h := pow_lt_pow_right₀ (by linarith : (1 : ℚ) < 1 + r) (Nat.pos_of_ne_zero hn)
  simpa using h

theorem pow1r_pos {r : ℚ} (hr : 0 < r) (n : ℕ) : 0 < (1 + r) ^ n :=
  pow_pos (by linarith) n

theorem pmtWithBalloon_eq_specPay (P r b : ℚ) (n : ℕ) :
    pmtWithBalloon P r n b = specPay P r n b := by
  unfold pmtWithBalloon specPay
  rw [zpow_neg, zpow_natCast]

theorem pmtBase_eq_specPay (P r : ℚ) (n : ℕ) (hr : 0 < r) (hn : n ≠ 0) :
    pmtBase P r n = specPay P r n 0 := by
  have hs1 : 1 < (1 + r) ^ n := one_lt_pow1r hr hn
  have hs0 : ((1 : ℚ) + r) ^ n ≠ 0 := ne_of_gt (pow1r_pos hr n)
  have hd : (1 + r) ^ n - 1 ≠ 0 := sub_ne_zero.mpr (ne_of_gt hs1)
  have hinv : ((1 + r) ^ n)⁻¹ < 1 := inv_lt_one_of_one_lt₀ hs1
  have hd2 : 1 - ((1 + r) ^ n)⁻¹ ≠ 0 := ne_of_gt (by linarith)
  unfold pmtBase specPay
  field_simp

theorem calculatedPmt_eq_specPay (P r : ℚ) (n : ℕ) (bp : Option ℚ)
    (hr : 0 < r) (hn : n ≠ 0) :
    calculatedPmt P r n bp = specPay P r n (effBalloon bp) := by
  cases bp with
  | none => simp [calculatedPmt, posOpt, effBalloon, pmtBase_eq_specPay P r n hr hn]
  | some b =>
    by_cases hb : 0 < b
    · simp [calculatedPmt, posOpt, effBalloon, hb, pmtWithBalloon_eq_specPay]
    · simp [calculatedPmt, posOpt, effBalloon, hb, pmtBase_eq_specPay P r n hr hn]

theorem specPay_div_r (P r B : ℚ) (n : ℕ) (hr : 0 < r) (hn : n ≠ 0) :
    specPay P r n B / r = (P * (1 + r) ^ n - B) / ((1 + r) ^ n - 1) := by
  have hs1 : 1 < (1 + r) ^ n := one_lt_pow1r hr hn
  have hs0 : ((1 : ℚ) + r) ^ n ≠ 0 := ne_of_gt (pow1r_pos hr n)
  have hd : (1 + r) ^ n - 1 ≠ 0 := sub_ne_zero.mpr (ne_of_gt hs1)
  have hinv : ((1 + r) ^ n)⁻¹ < 1 := inv_lt_one_of_one_lt₀ hs1
  have hd2 : 1 - ((1 + r) ^ n)⁻¹ ≠ 0 := ne_of_gt (by linarith)
  have hr0 : r ≠ 0 := ne_of_gt hr
  unfold specPay
  field_simp
  ring

theorem sub_payA (P r B : ℚ) (n : ℕ) (hr : 0 < r) (hn : n ≠ 0) :
    P - specPay P r n B / r = (B - P) / ((1 + r) ^ n - 1) := by
  have hs1 : 1 < (1 + r) ^ n := one_lt_pow1r hr hn
  have hd : (1 + r) ^ n - 1 ≠ 0 := sub_ne_zero.mpr (ne_of_gt hs1)
  rw [specPay_div_r P r B n hr hn]
  field_simp
  ring

theorem annuityBal_succ (P r pay : ℚ) (hr : r ≠ 0) (j : ℕ) :
    annuityBal P r pay (j + 1) = annuityBal P r pay j * (1 + r) - pay := by
  unfold annuityBal
  field_simp
  ring

theorem annuityBal_final (P r B : ℚ) (n : ℕ) (hr : 0 < r) (hn : n ≠ 0) :
    annuityBal P r (specPay P r n B) n = B := by
  have hs1 : 1 < (1 + r) ^ n := one_lt_pow1r hr hn
  have hd : (1 + r) ^ n - 1 ≠ 0 := sub_ne_zero.mpr (ne_of_gt hs1)
  unfold annuityBal
  rw [specPay_div_r P r B n hr hn]
  field_simp
  ring

theorem annuityBal_le_of (P r pay : ℚ) (h1r : 0 < r) (hPA : P - pay / r ≤ 0)
    {j k : ℕ} (hjk : j ≤ k) :
    annuityBal P r pay k ≤ annuityBal P r pay j := by
  unfold annuityBal
  have hp : (1 + r) ^ j ≤ (1 + r) ^ k := by
    rcases eq_or_lt_of_le hjk with h | h
    · rw [h]
    · exact le_of_lt (pow_lt_pow_right₀ (by linarith) h)
  nlinarith [hPA, hp]

theorem annuityBal_lt_of (P r pay : ℚ) (h1r : 0 < r) (hPA : P - pay / r < 0)
    {j k : ℕ} (hjk : j < k) :
    annuityBal P r pay k < annuityBal P r pay j := by
  unfold annuityBal
  have hp : (1 + r) ^ j < (1 + r) ^ k := pow_lt_pow_right₀ (by linarith) hjk
  nlinarith [hPA, hp]

theorem subA_nonpos (P r B : ℚ) (n : ℕ) (hr : 0 < r) (hn : n ≠ 0) (hBP : B ≤ P) :
    P - specPay P r n B / r ≤ 0 := by
  rw [sub_payA P r B n hr hn]
  have hs1 : 1 < (1 + r) ^ n := one_lt_pow1r hr hn
  apply div_nonpos_of_nonpos_of_nonneg (by linarith) (by linarith)

theorem subA_neg (P r B : ℚ) (n : ℕ) (hr : 0 < r) (hn : n ≠ 0) (hBP : B < P) :
    P - specPay P r n B / r < 0 := by
  rw [sub_payA P r B n hr hn]
  have hs1 : 1 < (1 + r) ^ n := one_lt_pow1r hr hn
  exact div_neg_of_neg_of_pos (by linarith) (by linarith)

theorem annuityBal_pos (P r B : ℚ) (n : ℕ) (hr : 0 < r) (hn : n ≠ 0) (hP : 0 < P)
    (hB0 : 0 ≤ B) (hBP : B ≤ P) {j : ℕ} (hj : j < n) :
    0 < annuityBal P r (specPay P r n B) j := by
  rcases lt_or_eq_of_le hBP with hlt | heq
  · have h1 := annuityBal_lt_of P r (specPay P r n B) hr (subA_neg P r B n hr hn hlt) hj
    rw [annuityBal_final P r B n hr hn] at h1
    linarith
  · have hPA : P - specPay P r n B / r = 0 := by
      rw [sub_payA P r B n hr hn, heq, sub_self, zero_div]
    have hA : specPay P r n B / r = P := by linarith
    unfold annuityBal
    rw [hA]
    have : P - P = 0 := sub_self P
    rw [this, zero_mul, zero_add]
    exact hP

theorem annuityBal_nonneg (P r B : ℚ) (n : ℕ) (hr : 0 < r) (hn : n ≠ 0) (hP : 0 < P)
    (hB0 : 0 ≤ B) (hBP : B ≤ P) {j : ℕ} (hj : j ≤ n) :
    0 ≤ annuityBal P r (specPay P r n B) j := by
  rcases eq_or_lt_of_le hj with heq | hlt
  · rw [heq, annuityBal_final P r B n hr hn]
    exact hB0
  · exact le_of_lt (annuityBal_pos P r B n hr hn hP hB0 hBP hlt)

theorem annuityBal_zero (P r pay : ℚ) : annuityBal P r pay 0 = P := by
  simp [annuityBal]

theorem effBalloon_nonneg (bp : Option ℚ) : 0 ≤ effBalloon bp := by
  cases bp with
  | none => simp [effBalloon]
  | some b =>
    by_cases hb : 0 < b
    · simp [effBalloon, hb]
      linarith
    · simp [effBalloon, hb]

theorem amortRec_closed (P r B : ℚ) (balloon : Option ℚ) (n : ℕ)
    (hr : 0 < r) (hP : 0 < P) (hn : n ≠ 0)
    (hB : effBalloon balloon = B) (hBP : B ≤ P) :
    ∀ fuel i bal cum, 1 ≤ i → i + fuel = n + 1 →
      bal = annuityBal P r (specPay P r n B) (i - 1) →
      (amortRec r (specPay P r n B) n balloon fuel i bal cum).1
        = (List.range' i fuel).map (schedEntry P r n B) := by
  have hB0 : 0 ≤ B := hB ▸ effBalloon_nonneg balloon
  intro fuel
  induction fuel with
  | zero =>
    intro i bal cum h1 h2 h3
    simp [amortRec]
  | succ fuel ih =>
    intro i bal cum h1 h2 h3
    have hin : i ≤ n := by omega
    have hi1n : i - 1 < n := by omega
    have hbal : 0 < bal := by
      rw [h3]
      exact annuityBal_pos P r B n hr hn hP hB0 hBP hi1n
    have hrne : r ≠ 0 := ne_of_gt hr
    have hnext : bal - (specPay P r n B - bal * r) = annuityBal P r (specPay P r n B) i := by
      have hs := annuityBal_succ P r (specPay P r n B) hrne (i - 1)
      have hi : i - 1 + 1 = i := by omega
      rw [hi] at hs
      rw [h3, hs]
      ring
    have hclamp : ¬ (bal - (specPay P r n B - bal * r) < 0) := by
      rw [hnext]
      exact not_lt.mpr (annuityBal_nonneg P r B n hr hn hP hB0 hBP hin)
    simp only [amortRec]
    rw [if_pos hbal, if_neg hclamp, hnext]
    by_cases hieq : i = n
    · have hf0 : fuel = 0 := by omega
      subst hf0
      have hfin : annuityBal P r (specPay P r n B) i = B := by
        rw [hieq]
        exact annuityBal_final P r B n hr hn
      have hmb : monthlyBal2 n balloon i (annuityBal P r (specPay P r n B) i) = 0 := by
        rw [hfin, hieq]
        cases balloon with
        | none =>
          have hBz : B = 0 := by rw [← hB]; rfl
          simp [monthlyBal2, gtOpt, posOpt, hBz]
        | some b =>
          by_cases hb : 0 < b
          · have hBb : B = b := by rw [← hB]; simp [effBalloon, hb]
            rw [hBb]
            simp [monthlyBal2, gtOpt, posOpt, hb]
          · have hBz : B = 0 := by rw [← hB]; simp [effBalloon, hb]
            by_cases hbneg : b < 0
            · simp [monthlyBal2, gtOpt, posOpt, hBz, hbneg]
            · have hb0 : b = 0 := by linarith [not_lt.mp hb, not_lt.mp hbneg]
              simp [monthlyBal2, gtOpt, posOpt, hBz, hb0]
      rw [hmb]
      rw [if_pos (le_refl (0 : ℚ))]
      simp only [List.range'_one, List.map_cons, List.map_nil]
      rw [h3]
      simp [schedEntry, hieq]
    · have hlt : i < n := lt_of_le_of_ne hin hieq
      have hmb : monthlyBal2 n balloon i (annuityBal P r (specPay P r n B) i)
          = annuityBal P r (specPay P r n B) i := by
        simp [monthlyBal2, hieq]
      rw [hmb]
      have hpos2 : 0 < annuityBal P r (specPay P r n B) i :=
        annuityBal_pos P r B n hr hn hP hB0 hBP hlt
      rw [if_neg (not_le.mpr hpos2)]
      rw [List.range'_succ]
      simp only [List.map_cons]
      have hih := ih (i + 1) (annuityBal P r (specPay P r n B) i) (cum + bal * r)
        (by omega) (by omega) (by simp)
      simp only [hih]
      rw [h3]
      simp [schedEntry, hieq]

theorem schedule_closed (P x : ℚ) (m : ℕ) (bp mr : Option ℚ)
    (hP : 0 < P) (hx : 0 < x) (hm : m ≠ 0) (hBP : effBalloon bp ≤ P) :
    (computeAmortization (some P) (some x) (some (m : ℚ)) bp mr false).schedule
      = (List.range' 1 (m * 12)).map
          (schedEntry P (periodicRate x) (m * 12) (effBalloon bp)) := by
  have hr : 0 < periodicRate x := (periodicRate_pos x).mpr hx
  have hm' : 0 < m := Nat.pos_of_ne_zero hm
  have hterm : truncQ ((m : ℕ) : ℚ) * 12 = ((m * 12 : ℕ) : ℤ) := by
    rw [truncQ_natCast]
    push_cast
    ring
  have hguard : ¬ (P ≤ 0 ∨ periodicRate x ≤ 0 ∨ truncQ ((m : ℕ) : ℚ) * 12 ≤ 0) := by
    push_neg
    refine ⟨hP, hr, ?_⟩
    rw [hterm]
    omega
  simp only [computeAmortization]
  rw [if_neg hguard]
  have htoNat : (truncQ ((m : ℕ) : ℚ) * 12).toNat = m * 12 := by
    rw [hterm]
    exact Int.toNat_natCast (m * 12)
  rw [htoNat]
  have hpay : finalRepayment
      (calculatedPmt P (periodicRate x) (m * 12) bp) mr false
      = calculatedPmt P (periodicRate x) (m * 12) bp := by
    simp [finalRepayment]
  rw [hpay]
  have hn12 : m * 12 ≠ 0 := by omega
  rw [calculatedPmt_eq_specPay P (periodicRate x) (m * 12) bp hr hn12]
  exact amortRec_closed P (periodicRate x) (effBalloon bp) bp (m * 12) hr hP hn12 rfl hBP
    (m * 12) 1 P 0 (le_refl 1) (by omega) (by rw [annuityBal_zero])

theorem computeAmortization_result (P x t : ℚ) (bp mr : Option ℚ) (ov : Bool)
    (hP : 0 < P) (hx : 0 < x) (ht : 1 ≤ truncQ t) :
    computeAmortization (some P) (some x) (some t) bp mr ov =
      { schedule := (amortRec (periodicRate x)
            (finalRepayment (calculatedPmt P (periodicRate x) (truncQ t * 12).toNat bp) mr ov)
            (truncQ t * 12).toNat bp (truncQ t * 12).toNat 1 P 0).1,
        totalInterest := (amortRec (periodicRate x)
            (finalRepayment (calculatedPmt P (periodicRate x) (truncQ t * 12).toNat bp) mr ov)
            (truncQ t * 12).toNat bp (truncQ t * 12).toNat 1 P 0).2,
        totalPayment := P + (amortRec (periodicRate x)
            (finalRepayment (calculatedPmt P (periodicRate x) (truncQ t * 12).toNat bp) mr ov)
            (truncQ t * 12).toNat bp (truncQ t * 12).toNat 1 P 0).2,
        calculatedMthRepayment := calculatedPmt P (periodicRate x) (truncQ t * 12).toNat bp } := by
  have hr : 0 < periodicRate x := (periodicRate_pos x).mpr hx
  have hguard : ¬ (P ≤ 0 ∨ periodicRate x ≤ 0 ∨ truncQ t * 12 ≤ 0) := by
    push_neg
    exact ⟨hP, hr, by omega⟩
  simp only [computeAmortization]
  rw [if_neg hguard]

theorem toNat_term (m : ℕ) : (truncQ ((m : ℕ) : ℚ) * 12).toNat = m * 12 := by
  rw [truncQ_natCast]
  have h : ((m : ℤ) * 12) = ((m * 12 : ℕ) : ℤ) := by push_cast; ring
  rw [h]
  exact Int.toNat_natCast (m * 12)

theorem posOpt_pos {b : ℚ} (h : 0 < b) : posOpt (some b) = true := by
  simp [posOpt, h]

theorem posOpt_nonpos {b : ℚ} (h : b ≤ 0) : posOpt (some b) = false := by
  simp [posOpt]
  exact h

theorem gtOpt_le {x b : ℚ} (h : x ≤ b) : gtOpt x (some b) = false := by
  simp [gtOpt]
  exact h

theorem gtOpt_gt {x b : ℚ} (h : b < x) : gtOpt x (some b) = true := by
  simp [gtOpt]
  exact h

/-- C2 counterexample: an input set with a negative balloon (principal 1000,
rate 1200 percent, term 1 year, balloon -5) is not rejected: the engine
produces a nonempty schedule instead of the canonical empty result. -/
theorem negative_balloon_not_rejected :
    (computeAmortization (some 1000) (some 1200) (some 1) (some (-5)) none false).schedule
      ≠ [] := by
  have ht : 1 ≤ truncQ (1 : ℚ) := by norm_num [truncQ]
  rw [computeAmortization_result 1000 1200 1 (some (-5)) none false (by norm_num)
    (by norm_num) ht]
  have h2 : (truncQ (1 : ℚ) * 12).toNat = 12 := by
    have h : truncQ (1 : ℚ) = 1 := by norm_num [truncQ]
    rw [h]
    rfl
  simp only [h2]
  norm_num [amortRec, monthlyBal2, gtOpt, posOpt, toFixed2, finalRepayment,
    calculatedPmt, pmtBase, periodicRate]
  exact List.cons_ne_nil _ _

/-- C2 amended: for every input set where principal, rate or term is NaN or
fails the guard (principal ≤ 0, rate ≤ 0, or parseInt(term)*12 ≤ 0), the
engine returns the canonical empty result without throwing; a negative
balloon is not checked by the guard. -/
theorem invalid_input_empty (la ir lt bp mr : Option ℚ) (ov : Bool)
    (h : validInput la ir lt = false) :
    computeAmortization la ir lt bp mr ov = emptyResult := by
  cases la with
  | none => rfl
  | some P =>
    cases ir with
    | none => rfl
    | some x =>
      cases lt with
      | none => rfl
      | some t =>
        simp only [validInput, Bool.not_eq_false', Bool.or_eq_true, decide_eq_true_eq] at h
        simp only [computeAmortization]
        rw [if_pos (show P ≤ 0 ∨ periodicRate x ≤ 0 ∨ truncQ t * 12 ≤ 0 by tauto)]

theorem invalid_input_empty_witness :
    validInput (some 0) (some 5) (some 30) = false
      ∧ computeAmortization (some 0) (some 5) (some 30) none none false = emptyResult :=
  ⟨by norm_num [validInput],
    invalid_input_empty (some 0) (some 5) (some 30) none none false
      (by norm_num [validInput])⟩

/-- C4: for every valid LoanParameters (positive principal, positive rate,
positive integer term, balloon B ≥ 0), the computed payment returned by the
engine equals the spec's formulas with r = (annualRatePercent/100)/12 and
n = termYears*12: the balloon-adjusted formula when B > 0 and the standard
annuity formula when B = 0. -/
theorem computed_payment_formula (P x B : ℚ) (m : ℕ) (mr : Option ℚ) (ov : Bool)
    (hP : 0 < P) (hx : 0 < x) (hm : m ≠ 0) (hB : 0 ≤ B) :
    (computeAmortization (some P) (some x) (some ((m : ℕ) : ℚ)) (some B) mr ov).calculatedMthRepayment
      = if 0 < B then
          (P - B / (1 + x / 100 / 12) ^ (m * 12)) * (x / 100 / 12)
            / (1 - (1 + x / 100 / 12) ^ (-((m * 12 : ℕ) : ℤ)))
        else P * (x / 100 / 12) * (1 + x / 100 / 12) ^ (m * 12)
            / ((1 + x / 100 / 12) ^ (m * 12) - 1) := by
  have ht : 1 ≤ truncQ ((m : ℕ) : ℚ) := by
    rw [truncQ_natCast]
    have := Nat.pos_of_ne_zero hm
    omega
  rw [computeAmortization_result P x ((m : ℕ) : ℚ) (some B) mr ov hP hx ht]
  simp only [toNat_term]
  by_cases hb : 0 < B
  · rw [if_pos hb]
    have hsel : calculatedPmt P (periodicRate x) (m * 12) (some B)
        = pmtWithBalloon P (periodicRate x) (m * 12) B := by
      simp [calculatedPmt, posOpt_pos hb]
    rw [hsel]
    simp only [pmtWithBalloon, periodicRate]
    rw [mul_div_assoc]
  · rw [if_neg hb]
    have hsel : calculatedPmt P (periodicRate x) (m * 12) (some B)
        = pmtBase P (periodicRate x) (m * 12) := by
      simp [calculatedPmt, posOpt_nonpos (not_lt.mp hb)]
    rw [hsel]
    simp only [pmtBase, periodicRate]
    rw [← mul_assoc]

theorem computed_payment_formula_witness :
    (computeAmortization (some 1000) (some 120) (some ((1 : ℕ) : ℚ)) (some 5) none false).calculatedMthRepayment
      = if (0 : ℚ) < 5 then
          (1000 - 5 / (1 + 120 / 100 / 12) ^ (1 * 12)) * (120 / 100 / 12)
            / (1 - (1 + 120 / 100 / 12) ^ (-((1 * 12 : ℕ) : ℤ)))
        else 1000 * (120 / 100 / 12) * (1 + 120 / 100 / 12) ^ (1 * 12)
            / ((1 + 120 / 100 / 12) ^ (1 * 12) - 1) :=
  computed_payment_formula 1000 120 5 1 none false (by norm_num) (by norm_num)
    (by norm_num) (by norm_num)

/-- C5: for every valid LoanParameters, when the override flag is set and a
positive override payment is supplied, the schedule is generated with that
override as the effective payment; the computed payment returned to the
caller is the formula value either way; and with no override the schedule
is generated with the computed payment. -/
theorem override_semantics (P x t mth : ℚ) (bp : Option ℚ)
    (hP : 0 < P) (hx : 0 < x) (ht : 1 ≤ truncQ t) (hm : 0 < mth) :
    (computeAmortization (some P) (some x) (some t) bp (some mth) true).schedule
      = (amortRec (periodicRate x) mth (truncQ t * 12).toNat bp
          (truncQ t * 12).toNat 1 P 0).1
    ∧ (computeAmortization (some P) (some x) (some t) bp (some mth) true).calculatedMthRepayment
      = calculatedPmt P (periodicRate x) (truncQ t * 12).toNat bp
    ∧ (computeAmortization (some P) (some x) (some t) bp (some mth) false).schedule
      = (amortRec (periodicRate x)
          (calculatedPmt P (periodicRate x) (truncQ t * 12).toNat bp)
          (truncQ t * 12).toNat bp (truncQ t * 12).toNat 1 P 0).1 := by
  rw [computeAmortization_result P x t bp (some mth) true hP hx ht,
    computeAmortization_result P x t bp (some mth) false hP hx ht]
  refine ⟨?_, rfl, ?_⟩ <;> simp [finalRepayment, posOpt, hm]

theorem override_semantics_witness :
    (computeAmortization (some 1000) (some 120) (some 1) none (some 50) true).schedule
      = (amortRec (periodicRate 120) 50 (truncQ 1 * 12).toNat none
          (truncQ 1 * 12).toNat 1 1000 0).1
    ∧ (computeAmortization (some 1000) (some 120) (some 1) none (some 50) true).calculatedMthRepayment
      = calculatedPmt 1000 (periodicRate 120) (truncQ 1 * 12).toNat none
    ∧ (computeAmortization (some 1000) (some 120) (some 1) none (some 50) false).schedule
      = (amortRec (periodicRate 120)
          (calculatedPmt 1000 (periodicRate 120) (truncQ 1 * 12).toNat none)
          (truncQ 1 * 12).toNat none (truncQ 1 * 12).toNat 1 1000 0).1 :=
  override_semantics 1000 120 1 50 none (by norm_num) (by norm_num) (by decide) (by norm_num)

/-- C8 counterexample: on the invalid input principal 500, rate 0, the engine
returns totalPayment 0, which differs from principal + totalInterest = 500. -/
theorem total_payment_cex :
    (computeAmortization (some 500) (some 0) (some 30) none none false).totalPayment
      ≠ 500 + (computeAmortization (some 500) (some 0) (some 30) none none false).totalInterest := by
  norm_num [computeAmortization, truncQ, periodicRate, emptyResult]

/-- C8 amended: for every run that passes the validity guard, the returned
totalPayment equals principal + totalInterest exactly; on invalid runs all
totals are 0 regardless of the parsed principal. -/
theorem total_payment_eq (P x t : ℚ) (bp mr : Option ℚ) (ov : Bool)
    (hP : 0 < P) (hx : 0 < x) (ht : 1 ≤ truncQ t) :
    (computeAmortization (some P) (some x) (some t) bp mr ov).totalPayment
      = P + (computeAmortization (some P) (some x) (some t) bp mr ov).totalInterest := by
  rw [computeAmortization_result P x t bp mr ov hP hx ht]

theorem total_payment_eq_witness :
    (computeAmortization (some 1000) (some 120) (some 1) none none false).totalPayment
      = 1000 + (computeAmortization (some 1000) (some 120) (some 1) none none false).totalInterest :=
  total_payment_eq 1000 120 1 none none false (by norm_num) (by norm_num) (by decide)

theorem amortRec_none_eq_zero (r pay : ℚ) (n : ℕ) :
    ∀ fuel i bal cum, amortRec r pay n none fuel i bal cum
      = amortRec r pay n (some 0) fuel i bal cum := by
  intro fuel
  induction fuel with
  | zero => intro i bal cum; rfl
  | succ fuel ih =>
    intro i bal cum
    simp only [amortRec]
    have hmb : ∀ b1 : ℚ, monthlyBal2 n none i b1 = monthlyBal2 n (some 0) i b1 := by
      intro b1
      by_cases hin : i = n
      · by_cases hpos : (0 : ℚ) < b1
        · simp [monthlyBal2, hin, gtOpt, posOpt, hpos]
        · simp [monthlyBal2, hin, gtOpt, posOpt, hpos]
      · simp [monthlyBal2, hin]
    simp only [hmb, ih]

theorem nan_balloon_eq (la ir lt mr : Option ℚ) (ov : Bool) :
    computeAmortization la ir lt none mr ov = computeAmortization la ir lt (some 0) mr ov := by
  cases la with
  | none => rfl
  | some P =>
    cases ir with
    | none => rfl
    | some x =>
      cases lt with
      | none => rfl
      | some t =>
        simp only [computeAmortization]
        by_cases hguard : P ≤ 0 ∨ periodicRate x ≤ 0 ∨ truncQ t * 12 ≤ 0
        · rw [if_pos hguard, if_pos hguard]
        · rw [if_neg hguard, if_neg hguard]
          have hpmt : calculatedPmt P (periodicRate x) (truncQ t * 12).toNat none
              = calculatedPmt P (periodicRate x) (truncQ t * 12).toNat (some 0) := by
            simp [calculatedPmt, posOpt]
          rw [hpmt, amortRec_none_eq_zero]

/-- C10: an input set whose balloon does not parse (NaN) is not rejected:
the engine behaves exactly as if the balloon were 0 -- the base payment
formula is used and no final-period subtraction occurs -- and, with no
override, the full schedule of termYears*12 months is produced. -/
theorem nan_balloon_behaves_as_zero :
    (∀ la ir lt mr ov, computeAmortization la ir lt none mr ov
        = computeAmortization la ir lt (some 0) mr ov)
    ∧ ∀ (P x : ℚ) (m : ℕ) (mr : Option ℚ), 0 < P → 0 < x → m ≠ 0 →
        (computeAmortization (some P) (some x) (some ((m : ℕ) : ℚ)) none mr false).schedule.length
          = m * 12 := by
  constructor
  · intro la ir lt mr ov
    exact nan_balloon_eq la ir lt mr ov
  · intro P x m mr hP hx hm
    rw [schedule_closed P x m none mr hP hx hm
      (by simpa [effBalloon] using le_of_lt hP)]
    simp

theorem nan_balloon_behaves_as_zero_witness :
    computeAmortization (some 1000) (some 1200) (some ((1 : ℕ) : ℚ)) none none false
      = computeAmortization (some 1000) (some 1200) (some ((1 : ℕ) : ℚ)) (some 0) none false
    ∧ (computeAmortization (some 1000) (some 1200) (some ((1 : ℕ) : ℚ)) none none false).schedule.length
      = 1 * 12 :=
  ⟨nan_balloon_behaves_as_zero.1 (some 1000) (some 1200) (some ((1 : ℕ) : ℚ)) none false,
    nan_balloon_behaves_as_zero.2 1000 1200 1 none (by norm_num) (by norm_num) (by norm_num)⟩

/-- C3 counterexample: with balloon 100 and an override payment of 999 on
principal 1000 at 1200 percent over 1 year, the post-payment balance in
month 12 exceeds the balloon, and the engine does not subtract the balloon:
its schedule differs from that of the variant engine that subtracts the
balloon unconditionally in the final period as the claim states. -/
theorem final_balloon_not_subtracted_cex :
    (computeAmortization (some 1000) (some 1200) (some 1) (some 100) (some 999) true).schedule
      ≠ (computeAmortizationSub (some 1000) (some 1200) (some 1) (some 100) (some 999) true).schedule := by
  norm_num [computeAmortization, computeAmortizationSub, truncQ, periodicRate, finalRepayment,
    posOpt_pos, show ((12 : ℤ)).toNat = 12 from rfl, amortRec, amortRecSub, monthlyBal2,
    monthlyBal2Sub, gtOpt, posOpt, toFixed2, round_ofNat]

/-- C3 amended: in the final period i = n with balloon B > 0, the generator
subtracts B from the remaining balance exactly when the post-payment balance
does not exceed B (which always holds in a no-override run, where that
balance equals B); when a low override leaves a balance above B, no
subtraction occurs. -/
theorem balloon_subtracted_when_not_exceeding (n i : ℕ) (b bal1 : ℚ)
    (hi : i = n) (hb : 0 < b) (hle : bal1 ≤ b) :
    monthlyBal2 n (some b) i bal1 = bal1 - b := by
  subst hi
  simp [monthlyBal2, gtOpt_le hle, posOpt_pos hb]

theorem balloon_subtracted_when_not_exceeding_witness :
    monthlyBal2 12 (some 100) 12 50 = 50 - 100 :=
  balloon_subtracted_when_not_exceeding 12 12 100 50 rfl (by norm_num) (by norm_num)

/-- C1 counterexample: with an override payment of 50 on principal 1000 at
1200 percent a year over 1 year, the payment is below the monthly interest
and the recorded remainingBalance increases from month to month, so the
schedule is not non-increasing. -/
theorem balance_not_monotone_cex :
    ¬ List.Chain' (fun a b => b.remainingBalance ≤ a.remainingBalance)
      (computeAmortization (some 1000) (some 1200) (some 1) (some 0) (some 50) true).schedule := by
  norm_num [computeAmortization, truncQ, periodicRate, finalRepayment, posOpt_pos,
    Int.toNat_ofNat, amortRec, monthlyBal2, gtOpt, posOpt, toFixed2, round_ofNat,
    List.chain'_cons]

theorem schedEntry_balance_nonneg (P r B : ℚ) (n : ℕ) (hr : 0 < r) (hn : n ≠ 0)
    (hP : 0 < P) (hB0 : 0 ≤ B) (hBP : B ≤ P) {j : ℕ} (hj : j ≤ n) :
    0 ≤ (schedEntry P r n B j).remainingBalance := by
  simp only [schedEntry]
  apply toFixed2_nonneg
  by_cases hjn : j = n
  · rw [if_pos hjn]
  · rw [if_neg hjn]
    exact annuityBal_nonneg P r B n hr hn hP hB0 hBP hj

theorem schedEntry_balance_step (P r B : ℚ) (n : ℕ) (hr : 0 < r) (hn : n ≠ 0)
    (hP : 0 < P) (hB0 : 0 ≤ B) (hBP : B ≤ P) {j : ℕ} (hj1 : 1 ≤ j) (hj : j + 1 ≤ n) :
    (schedEntry P r n B (j + 1)).remainingBalance ≤ (schedEntry P r n B j).remainingBalance := by
  simp only [schedEntry]
  apply toFixed2_mono
  have hjn : ¬ (j = n) := by omega
  rw [if_neg hjn]
  by_cases hj1n : j + 1 = n
  · rw [if_pos hj1n]
    exact annuityBal_nonneg P r B n hr hn hP hB0 hBP (by omega)
  · rw [if_neg hj1n]
    exact annuityBal_le_of P r (specPay P r n B) hr (subA_nonpos P r B n hr hn hBP)
      (Nat.le_succ j)

/-- C1 amended: for every valid LoanParameters with no active override and
with effective balloon at most the principal, the recorded remainingBalance
is non-increasing from each entry to the next and no entry is negative.
(With a low override, or a balloon above the principal, the balance can
increase, as the counterexample shows.) -/
theorem balance_monotone_nonneg (P x : ℚ) (m : ℕ) (bp mr : Option ℚ)
    (hP : 0 < P) (hx : 0 < x) (hm : m ≠ 0) (hBP : effBalloon bp ≤ P) :
    List.Chain' (fun a b => b.remainingBalance ≤ a.remainingBalance)
      (computeAmortization (some P) (some x) (some ((m : ℕ) : ℚ)) bp mr false).schedule
    ∧ ∀ e ∈ (computeAmortization (some P) (some x) (some ((m : ℕ) : ℚ)) bp mr false).schedule,
        0 ≤ e.remainingBalance := by
  rw [schedule_closed P x m bp mr hP hx hm hBP]
  have hr : 0 < periodicRate x := (periodicRate_pos x).mpr hx
  have hn : m * 12 ≠ 0 := by
    have := Nat.pos_of_ne_zero hm
    omega
  have hB0 : 0 ≤ effBalloon bp := effBalloon_nonneg bp
  constructor
  · rw [List.chain'_iff_get]
    intro k hk
    simp only [List.length_map, List.length_range'] at hk
    simp only [List.get_eq_getElem, List.getElem_map, List.getElem_range']
    have h1 : 1 + 1 * (k + 1) = (1 + 1 * k) + 1 := by ring
    rw [h1]
    exact schedEntry_balance_step P (periodicRate x) (effBalloon bp) (m * 12) hr hn hP hB0 hBP
      (by omega) (by omega)
  · intro e he
    rw [List.mem_map] at he
    obtain ⟨j, hj, rfl⟩ := he
    rw [List.mem_range'_1] at hj
    exact schedEntry_balance_nonneg P (periodicRate x) (effBalloon bp) (m * 12) hr hn hP hB0 hBP
      (by omega)

theorem balance_monotone_nonneg_witness :
    List.Chain' (fun a b => b.remainingBalance ≤ a.remainingBalance)
      (computeAmortization (some 1000) (some 1200) (some ((1 : ℕ) : ℚ)) none none false).schedule
    ∧ ∀ e ∈ (computeAmortization (some 1000) (some 1200) (some ((1 : ℕ) : ℚ)) none none false).schedule,
        0 ≤ e.remainingBalance :=
  balance_monotone_nonneg 1000 1200 1 none none (by norm_num) (by norm_num) (by norm_num)
    (by norm_num [effBalloon])

theorem specPay_lt_specPay_zero (P r : ℚ) (n : ℕ) (B : ℚ)
    (hr : 0 < r) (hn : n ≠ 0) (hB : 0 < B) :
    specPay P r n B < specPay P r n 0 := by
  have hs1 : 1 < (1 + r) ^ n := one_lt_pow1r hr hn
  have hs0 : (0 : ℚ) < (1 + r) ^ n := pow1r_pos hr n
  have hinv : ((1 + r) ^ n)⁻¹ < 1 := inv_lt_one_of_one_lt₀ hs1
  have hd2 : 0 < 1 - ((1 + r) ^ n)⁻¹ := by linarith
  have key : specPay P r n 0 - specPay P r n B
      = (B / (1 + r) ^ n) * (r / (1 - ((1 + r) ^ n)⁻¹)) := by
    unfold specPay
    ring
  have hpos : 0 < (B / (1 + r) ^ n) * (r / (1 - ((1 + r) ^ n)⁻¹)) := by positivity
  linarith

/-- C7: for principal 250000, rate 3.5 percent, term 30 years, the computed
payment with balloon 50000 is strictly less than the computed payment with
balloon 0, and the final month of the balloon run records remainingBalance
exactly 0 after the balloon subtraction. -/
theorem balloon_run_results :
    (computeAmortization (some 250000) (some (7/2)) (some ((30 : ℕ) : ℚ))
        (some 50000) none false).calculatedMthRepayment
      < (computeAmortization (some 250000) (some (7/2)) (some ((30 : ℕ) : ℚ))
          (some 0) none false).calculatedMthRepayment
    ∧ ((computeAmortization (some 250000) (some (7/2)) (some ((30 : ℕ) : ℚ))
          (some 50000) none false).schedule.getLast?).map (fun e => e.remainingBalance)
        = some 0 := by
  have hx : (0 : ℚ) < 7/2 := by norm_num
  have ht : 1 ≤ truncQ ((30 : ℕ) : ℚ) := by
    rw [truncQ_natCast]
    omega
  have hr : 0 < periodicRate (7/2) := (periodicRate_pos _).mpr hx
  have hn : (30 * 12 : ℕ) ≠ 0 := by norm_num
  constructor
  · rw [computeAmortization_result 250000 (7/2) ((30 : ℕ) : ℚ) (some 50000) none false
      (by norm_num) hx ht]
    rw [computeAmortization_result 250000 (7/2) ((30 : ℕ) : ℚ) (some 0) none false
      (by norm_num) hx ht]
    simp only [toNat_term]
    rw [calculatedPmt_eq_specPay 250000 (periodicRate (7/2)) (30 * 12) (some 50000) hr hn]
    rw [calculatedPmt_eq_specPay 250000 (periodicRate (7/2)) (30 * 12) (some 0) hr hn]
    have h1 : effBalloon (some (50000 : ℚ)) = 50000 := by norm_num [effBalloon]
    have h2 : effBalloon (some (0 : ℚ)) = 0 := by norm_num [effBalloon]
    rw [h1, h2]
    exact specPay_lt_specPay_zero 250000 (periodicRate (7/2)) (30 * 12) 50000 hr hn
      (by norm_num)
  · rw [schedule_closed 250000 (7/2) 30 (some 50000) none (by norm_num) hx (by norm_num)
      (by norm_num [effBalloon])]
    have h360 : (30 * 12 : ℕ) = 359 + 1 := by norm_num
    rw [h360, List.range'_1_concat, List.map_append]
    norm_num [List.getLast?_concat, schedEntry, toFixed2_zero]

/-- C6 counterexample: the guard accepts termYears 5/2 (parseInt truncates it
to 2) together with balloon -1, an input set the claim's validator -- which
demands an integral term and a nonnegative balloon -- rejects. -/
theorem validator_mismatch_cex :
    validInput (some 1000) (some 120) (some (5/2)) = true
      ∧ specValidInput (some 1000) (some 120) (some (5/2)) (some (-1)) = false := by
  have hfl : ⌊(5/2 : ℚ)⌋ = 2 := by
    rw [Int.floor_eq_iff]
    norm_num
  constructor
  · norm_num [validInput, truncQ, hfl, periodicRate]
  · norm_num [specValidInput]

/-- C6 amended: the guard accepts an input set exactly when principal parses
to a number greater than 0, the rate parses to a number greater than 0, and
termYears truncates (parseInt) to an integer of at least 1; a fractional
term is truncated rather than rejected and the balloon is never checked. -/
theorem validInput_iff (la ir lt : Option ℚ) :
    validInput la ir lt = true
      ↔ ∃ P x t, la = some P ∧ ir = some x ∧ lt = some t
          ∧ 0 < P ∧ 0 < x ∧ 1 ≤ truncQ t := by
  cases la with
  | none => simp [validInput]
  | some P =>
    cases ir with
    | none => simp [validInput]
    | some x =>
      cases lt with
      | none => simp [validInput]
      | some t =>
        have key : validInput (some P) (some x) (some t) = true
            ↔ (0 < P ∧ 0 < periodicRate x ∧ 0 < truncQ t * 12) := by
          unfold validInput
          simp [not_or]
          tauto
        rw [key]
        constructor
        · rintro ⟨h1, h2, h3⟩
          exact ⟨P, x, t, rfl, rfl, rfl, h1, (periodicRate_pos x).mp h2, by omega⟩
        · intro h
          obtain ⟨P', x', t', hP', hx', ht', h1, h2, h3⟩ := h
          rw [Option.some.injEq] at hP' hx' ht'
          subst hP'
          subst hx'
          subst ht'
          exact ⟨h1, (periodicRate_pos x).mpr h2, by omega⟩

theorem filter_month_slice (l : List ScheduleEntry)
    (hmonth : ∀ k (hk : k < l.length), (l.get ⟨k, hk⟩).month = k + 1) (i : ℕ) :
    l.filter (fun e => decide (i * 12 + 1 ≤ e.month) && decide (e.month ≤ i * 12 + 12))
      = (l.drop (i * 12)).take 12 := by
  have hA : ∀ e ∈ l.take (i * 12),
      ¬ ((fun e : ScheduleEntry => decide (i * 12 + 1 ≤ e.month)
          && decide (e.month ≤ i * 12 + 12)) e = true) := by
    intro e he
    rw [List.mem_iff_getElem] at he
    obtain ⟨k, hk, he⟩ := he
    rw [List.getElem_take] at he
    have hkm : k < i * 12 := by
      have := hk
      rw [List.length_take] at this
      omega
    have hklen : k < l.length := by
      have := hk
      rw [List.length_take] at this
      omega
    have hm := hmonth k hklen
    rw [List.get_eq_getElem] at hm
    rw [← he]
    simp only [Bool.and_eq_true, decide_eq_true_eq, not_and]
    intro h1
    rw [hm] at h1
    omega
  have hB : ∀ e ∈ (l.drop (i * 12)).take 12,
      ((fun e : ScheduleEntry => decide (i * 12 + 1 ≤ e.month)
          && decide (e.month ≤ i * 12 + 12)) e = true) := by
    intro e he
    rw [List.mem_iff_getElem] at he
    obtain ⟨k, hk, he⟩ := he
    rw [List.getElem_take, List.getElem_drop] at he
    have hk12 : k < 12 := by
      have := hk
      rw [List.length_take] at this
      omega
    have hklen : i * 12 + k < l.length := by
      have := hk
      rw [List.length_take, List.length_drop] at this
      omega
    have hm := hmonth (i * 12 + k) hklen
    rw [List.get_eq_getElem] at hm
    rw [← he]
    simp only [Bool.and_eq_true, decide_eq_true_eq]
    rw [hm]
    omega
  have hC : ∀ e ∈ l.drop (i * 12 + 12),
      ¬ ((fun e : ScheduleEntry => decide (i * 12 + 1 ≤ e.month)
          && decide (e.month ≤ i * 12 + 12)) e = true) := by
    intro e he
    rw [List.mem_iff_getElem] at he
    obtain ⟨k, hk, he⟩ := he
    rw [List.getElem_drop] at he
    have hklen : i * 12 + 12 + k < l.length := by
      have := hk
      rw [List.length_drop] at this
      omega
    have hm := hmonth (i * 12 + 12 + k) hklen
    rw [List.get_eq_getElem] at hm
    rw [← he]
    simp only [Bool.and_eq_true, decide_eq_true_eq, not_and]
    intro h1
    rw [hm]
    omega
  have hdd : (l.drop (i * 12)).drop 12 = l.drop (i * 12 + 12) := by
    rw [List.drop_drop]
  calc l.filter (fun e => decide (i * 12 + 1 ≤ e.month) && decide (e.month ≤ i * 12 + 12))
      = (l.take (i * 12) ++ l.drop (i * 12)).filter
          (fun e => decide (i * 12 + 1 ≤ e.month) && decide (e.month ≤ i * 12 + 12)) := by
        rw [List.take_append_drop]
    _ = (l.drop (i * 12)).filter
          (fun e => decide (i * 12 + 1 ≤ e.month) && decide (e.month ≤ i * 12 + 12)) := by
        rw [List.filter_append, List.filter_eq_nil_iff.mpr hA, List.nil_append]
    _ = ((l.drop (i * 12)).take 12 ++ l.drop (i * 12 + 12)).filter
          (fun e => decide (i * 12 + 1 ≤ e.month) && decide (e.month ≤ i * 12 + 12)) := by
        rw [← hdd, List.take_append_drop]
    _ = (l.drop (i * 12)).take 12 := by
        rw [List.filter_append, List.filter_eq_nil_iff.mpr hC, List.append_nil,
          List.filter_eq_self.mpr hB]

theorem chartLoop_eq_specAux (l : List ScheduleEntry) (m : ℕ)
    (hmonth : ∀ k (hk : k < l.length), (l.get ⟨k, hk⟩).month = k + 1) :
    ∀ fuel i, i + fuel = m →
      chartLoop l (some ((m : ℕ) : ℚ)) fuel i = specYearlyAux l fuel (i + 1) := by
  intro fuel
  induction fuel with
  | zero => intro i hi; rfl
  | succ fuel ih =>
    intro i hi
    simp only [chartLoop, specYearlyAux]
    have hcond : ltOpt ((i : ℕ) : ℚ) (some ((m : ℕ) : ℚ)) = true := by
      simp only [ltOpt, decide_eq_true_eq]
      exact_mod_cast (by omega : i < m)
    rw [hcond]
    have hpred : (fun e : ScheduleEntry => decide ((i + 1 - 1) * 12 + 1 ≤ e.month)
        && decide (e.month ≤ (i + 1) * 12))
        = (fun e : ScheduleEntry => decide (i * 12 + 1 ≤ e.month)
            && decide (e.month ≤ i * 12 + 12)) := by
      funext e
      have h1 : i + 1 - 1 = i := rfl
      have h2 : (i + 1) * 12 = i * 12 + 12 := by ring
      rw [h1, h2]
    rw [hpred, filter_month_slice l hmonth i]
    by_cases hempty : (l.drop (i * 12)).take 12 = []
    · rw [if_pos rfl, if_pos hempty, if_pos hempty]
    · rw [if_pos rfl, if_neg hempty, if_neg hempty]
      rw [ih (i + 1) (by omega)]

/-- C9: for every schedule whose entries carry the 1-based month index of
their position (as every engine-produced schedule does) and every natural
termYears, the chart aggregation equals the spec's description: summaries
for years 1, 2, ... in order, year y summing principal and interest of the
entries with month in [(y-1)*12+1, y*12], stopping at the first empty slice
or after termYears. -/
theorem chartData_eq_spec (schedule : List ScheduleEntry) (m : ℕ)
    (hmonth : ∀ k (hk : k < schedule.length), (schedule.get ⟨k, hk⟩).month = k + 1) :
    chartData schedule (some ((m : ℕ) : ℚ)) = specYearlyAgg schedule m := by
  unfold chartData specYearlyAgg
  have hfuel : chartFuel (some ((m : ℕ) : ℚ)) = m := by
    simp [chartFuel]
  rw [hfuel]
  by_cases hemp : schedule = []
  · rw [if_pos hemp]
    subst hemp
    cases m with
    | zero => rfl
    | succ m => simp [specYearlyAux]
  · rw [if_neg hemp]
    exact chartLoop_eq_specAux schedule m hmonth m 0 (by omega)

theorem chartData_eq_spec_witness :
    chartData [⟨1, 10, 20, 30, 40⟩, ⟨2, 11, 21, 31, 41⟩] (some ((1 : ℕ) : ℚ))
      = specYearlyAgg [⟨1, 10, 20, 30, 40⟩, ⟨2, 11, 21, 31, 41⟩] 1 :=
  chartData_eq_spec [⟨1, 10, 20, 30, 40⟩, ⟨2, 11, 21, 31, 41⟩] 1 (by
    intro k hk
    simp only [List.length_cons, List.length_nil] at hk
    interval_cases k <;> rfl)

end LoanCalc
